import Mathlib

/-!
Verification of the core conversion pipeline of NetscapeGen
(src/excel_to_netscape.py): schema detection, row cleaning, bookmark-tree
construction, Netscape-HTML rendering, and tree statistics.

The Python code is shallowly embedded as executable Lean definitions:

* a spreadsheet cell is an `Option String` (`none` models an absent column
  or a NaN cell, which pandas treats identically for `pd.notna`; scalar
  cells are modelled after `str()` conversion);
* a row is an association list from column name to cell;
* the nested `dict` tree (keys `_bookmarks_` and `_folders_`) is an
  inductive `TreeNode` whose folder map is an insertion-ordered
  association list, matching Python dict semantics;
* `time.time()` is modelled by a timestamp parameter `ts : Nat`, constant
  within one rendering pass (the claims under study do not depend on the
  numeric value of the timestamps);
* Python `str.strip()` is `strip` below, `html.escape` is `escapeHtml`
  (character-by-character substitution, equivalent to the chain of
  `str.replace` calls because no replacement introduces a character that a
  later replacement rewrites), and f-string interpolation of an `int` is
  `natToString`.
-/

/-- Configuration constant `TITLE_COLUMN` from the source. -/
def TITLE_COLUMN : String := "Title"

/-- Configuration constant `URL_COLUMN` from the source. -/
def URL_COLUMN : String := "URL"

/-- A spreadsheet row: mapping from column name to scalar cell value.
`none` models both a missing column and a NaN/None cell. -/
abbrev Row : Type := List (String × Option String)

/-- `row.get(col)` in pandas: first matching column's value, `none` when the
label is absent. -/
def getCell (r : Row) (c : String) : Option String :=
  match (List.find? (fun p => p.1 = c) r) with
  | some p => p.2
  | none => none

/-- Python `str.strip()`: remove leading and trailing whitespace. -/
def strip (s : String) : String :=
  String.mk (((s.data.dropWhile Char.isWhitespace).reverse.dropWhile Char.isWhitespace).reverse)

/-- The blank-or-missing-cell test used throughout the source:
`not (pd.notna(v) and str(v).strip() != "")`. -/
def isBlank : Option String → Bool
  | none => true
  | some s => strip s == ""

/-- One escaped character of `html.escape` (quote=True). -/
def escapeChar (c : Char) : String :=
  if c = '&' then "&amp;"
  else if c = '<' then "&lt;"
  else if c = '>' then "&gt;"
  else if c = '"' then "&quot;"
  else if c = Char.ofNat 39 then "&#x27;"
  else String.mk [c]

/-- `html.escape` on the character list of a string. -/
def escChars : List Char → List Char
  | [] => []
  | c :: cs => (escapeChar c).data ++ escChars cs

/-- `html.escape(str(text))` for a string argument (source `escape_html`
with a non-null input). -/
def escapeHtml (s : String) : String := String.mk (escChars s.data)

/-- Source `escape_html`: empty string for None/NaN, `html.escape` otherwise. -/
def escape_html : Option String → String
  | none => ""
  | some s => escapeHtml s

/-- A bookmark entry of the tree: the dict
`{'title': ..., 'url': ...}` built by `build_bookmark_tree`. -/
structure BookmarkEntry where
  title : String
  url : String
deriving Repr, DecidableEq

/-- The nested dictionary tree: `_bookmarks_` is the entry list,
`_folders_` the insertion-ordered folder-name-to-subtree mapping. -/
inductive TreeNode where
  | node (bookmarks : List BookmarkEntry) (folders : List (String × TreeNode)) : TreeNode

/-- The `_bookmarks_` field. -/
def TreeNode.bookmarks : TreeNode → List BookmarkEntry
  | .node bms _ => bms

/-- The `_folders_` field. -/
def TreeNode.folders : TreeNode → List (String × TreeNode)
  | .node _ fs => fs

/-- The fresh node `{'_bookmarks_': [], '_folders_': {}}`. -/
def emptyNode : TreeNode := TreeNode.node [] []

/-- Dict lookup on the folder mapping. -/
def getChild : List (String × TreeNode) → String → Option TreeNode
  | [], _ => none
  | (n, c) :: rest, name => if n = name then some c else getChild rest name

/-- Dict assignment on the folder mapping: replace the first binding of the
key in place, or append a new binding at the end (Python dict
insertion-order semantics). -/
def setChild : List (String × TreeNode) → String → TreeNode → List (String × TreeNode)
  | [], name, c => [(name, c)]
  | (n, c0) :: rest, name, c =>
      if n = name then (n, c) :: rest else (n, c0) :: setChild rest name c

/-- The per-row mutation of `build_bookmark_tree`: walk/create the folder
path, then append the optional bookmark at the node reached. -/
def addBookmarkAt (t : TreeNode) : List String → Option BookmarkEntry → TreeNode
  | [], none => t
  | [], some bm => TreeNode.node (t.bookmarks ++ [bm]) t.folders
  | f :: rest, bm? =>
      let child := (getChild t.folders f).getD emptyNode
      TreeNode.node t.bookmarks (setChild t.folders f (addBookmarkAt child rest bm?))

/-- Path extraction of `build_bookmark_tree` (source lines 283-289): read the
folder columns in order, strip, stop at the first blank cell. -/
def extractPath (r : Row) : List String → List String
  | [] => []
  | c :: cs =>
      if isBlank (getCell r c) then []
      else strip ((getCell r c).getD ("")) :: extractPath r cs

/-- Bookmark construction of `build_bookmark_tree` (source lines 300-311):
`none` when both title and URL are blank, otherwise the entry with
stripped values and the placeholders for blank fields. -/
def rowBookmark (r : Row) (title_col url_col : String) : Option BookmarkEntry :=
  let t := getCell r title_col
  let u := getCell r url_col
  if isBlank t && isBlank u then none
  else some
    { title := if isBlank t then "Untitled Bookmark" else strip (t.getD (""))
    , url := if isBlank u then "#" else strip (u.getD ("")) }

/-- `build_bookmark_tree(df, title_col, url_col, dynamic_folder_cols)`:
fold the rows in input order into the nested tree. -/
def build_bookmark_tree (rows : List Row) (title_col url_col : String)
    (dynamic_folder_cols : List String) : TreeNode :=
  rows.foldl
    (fun t r => addBookmarkAt t (extractPath r dynamic_folder_cols)
      (rowBookmark r title_col url_col))
    emptyNode

/-- Decimal digit character. -/
def digitChar (n : Nat) : Char := Char.ofNat (48 + n % 10)

/-- Decimal digit run of a positive number, most significant first
(`fuel` bounds the recursion; `fuel = n` suffices). -/
def natDigits : Nat → Nat → List Char
  | 0, _ => []
  | fuel + 1, n => if n = 0 then [] else natDigits fuel (n / 10) ++ [digitChar (n % 10)]

/-- Python `str(n)` / f-string interpolation for a nonnegative int. -/
def natToString (n : Nat) : String :=
  if n = 0 then "0" else String.mk (natDigits n n)

/-- `"    " * indent_level`. -/
def indentStr : Nat → String
  | 0 => ""
  | n + 1 => "    " ++ indentStr n

/-- Python `"\n".join(lines)`. -/
def joinLines : List String → String
  | [] => ""
  | [s] => s
  | s :: r :: rest => s ++ "\n" ++ joinLines (r :: rest)

/-- The bookmark line emitted by `generate_html_recursive` for one entry
(source lines 225-239), or `none` when the escaped title and URL are both
empty and the entry is skipped. -/
def bookmarkLineOpt (lvl ts : Nat) (e : BookmarkEntry) : Option String :=
  let title := escapeHtml e.title
  let url := escapeHtml e.url
  if title = "" ∧ url = "" then none
  else some (indentStr lvl ++ "<DT><A HREF=\"" ++ (if url = "" then "#" else url)
    ++ "\" ADD_DATE=\"" ++ natToString ts ++ "\" LAST_MODIFIED=\"" ++ natToString ts
    ++ "\">" ++ (if title = "" then "Untitled Bookmark" else title) ++ "</A>")

/-- The folder heading line emitted by `generate_html_recursive`
(source lines 242-251). -/
def headingLine (lvl ts : Nat) (name : String) : String :=
  let en := escapeHtml name
  indentStr lvl ++ "<DT><H3 ADD_DATE=\"" ++ natToString ts ++ "\" LAST_MODIFIED=\""
    ++ natToString ts ++ "\" PERSONAL_TOOLBAR_FOLDER=\"false\">"
    ++ (if en = "" then "Untitled Folder" else en) ++ "</H3>"

mutual
/-- The `html_output` list built by `generate_html_recursive`: bookmark
lines of the node first, then the folder blocks. -/
def htmlOutput : TreeNode → Nat → Nat → List String
  | .node bms fs, lvl, ts =>
      bms.filterMap (bookmarkLineOpt lvl ts) ++ htmlFolders fs lvl ts
/-- The folder part of `html_output`: per folder a heading line, an opening
list tag line, the joined recursive rendering (one list element, exactly as
the source appends the recursive result as a single string), and a closing
list tag line. -/
def htmlFolders : List (String × TreeNode) → Nat → Nat → List String
  | [], _, _ => []
  | (name, sub) :: rest, lvl, ts =>
      headingLine lvl ts name
        :: (indentStr lvl ++ "<DL><p>")
        :: joinLines (htmlOutput sub (lvl + 1) ts)
        :: (indentStr lvl ++ "</DL><p>")
        :: htmlFolders rest lvl ts
end

/-- `generate_html_recursive(data_structure, indent_level)`:
`"\n".join(html_output)`. -/
def generate_html_recursive (t : TreeNode) (lvl ts : Nat) : String :=
  joinLines (htmlOutput t lvl ts)

/-- The fixed document header (source lines 564-570). -/
def html_header : String :=
  "<!DOCTYPE NETSCAPE-Bookmark-file-1>\n"
    ++ "<META HTTP-EQUIV=\"Content-Type\" CONTENT=\"text/html; charset=UTF-8\">\n"
    ++ "<TITLE>Bookmarks</TITLE>\n"
    ++ "<H1>Bookmarks</H1>\n"
    ++ "<DL><p>\n"

/-- The fixed document footer. -/
def html_footer : String := "</DL><p>"

/-- `full_html = html_header + html_content + "\n" + html_footer`
(source line 573), with `indent_level = 1` as in the source call. -/
def full_html (t : TreeNode) (ts : Nat) : String :=
  html_header ++ generate_html_recursive t 1 ts ++ "\n" ++ html_footer

/-- The statistics accumulator `import_stats`. -/
structure ImportStats where
  total_bookmarks : Nat
  folders_per_level : List (Nat × List String)
deriving Repr, DecidableEq

/-- `set.add`: append if not already present (Python set membership;
insertion order is irrelevant to every use of the set). -/
def setInsert (l : List String) (x : String) : List String :=
  if x ∈ l then l else l ++ [x]

/-- `defaultdict(set)` update `stats['folders_per_level'][depth].add(name)`. -/
def addFolderAt : List (Nat × List String) → Nat → String → List (Nat × List String)
  | [], d, name => [(d, [name])]
  | (d0, s) :: rest, d, name =>
      if d0 = d then (d0, setInsert s name) :: rest
      else (d0, s) :: addFolderAt rest d name

mutual
/-- `analyze_tree_stats(node, current_depth, stats_dict)`: add the node's
own bookmark count, then fold over the children, registering each folder
name at the current depth and recursing one level deeper. -/
def analyze_tree_stats : TreeNode → Nat → ImportStats → ImportStats
  | .node bms fs, depth, stats =>
      analyzeFolders fs depth
        { stats with total_bookmarks := stats.total_bookmarks + bms.length }
/-- The child loop of `analyze_tree_stats`. -/
def analyzeFolders : List (String × TreeNode) → Nat → ImportStats → ImportStats
  | [], _, stats => stats
  | (name, sub) :: rest, depth, stats =>
      analyzeFolders rest depth
        (analyze_tree_stats sub (depth + 1)
          { stats with folders_per_level := addFolderAt stats.folders_per_level depth name })
end

/-- Consume a literal from the front of a character list; `some rest` on
success. -/
def dropLit : List Char → List Char → Option (List Char)
  | [], l => some l
  | _ :: _, [] => none
  | p :: ps, c :: cs => if p = c then dropLit ps cs else none

/-- Numeric value of a decimal digit run (`int(match.group(1))`). -/
def digitsVal (l : List Char) : Nat :=
  l.foldl (fun a c => a * 10 + (c.toNat - 48)) 0

/-- One column name against the pattern of source line 534,
`re.fullmatch(r'FolderL(\d+)', col_name)`: the literal `FolderL` followed
by one or more decimal digits and nothing else; on success the value of
the digit run. -/
def parseFolderCol (s : String) : Option Nat :=
  match dropLit ("FolderL").data s.data with
  | none => none
  | some ds => if !ds.isEmpty && ds.all Char.isDigit then some (digitsVal ds) else none

/-- Folder-column detection of `main` (source lines 531-540): collect the
matching `(level, name)` pairs in column order, sort them by level with a
stable sort (Python `list.sort` is stable; insertion sort with a
non-strict comparison produces the identical stable result), and keep the
names. -/
def detectFolderColumns (cols : List String) : List String :=
  ((cols.filterMap (fun c => (parseFolderCol c).map (fun n => (n, c)))).insertionSort
    (fun a b => a.1 ≤ b.1)).map Prod.snd

/-- The row filter of `main` (source lines 543-546): keep a row when the
title or the URL is present and non-blank. -/
def clean_rows (rows : List Row) : List Row :=
  rows.filter (fun r =>
    !(isBlank (getCell r TITLE_COLUMN)) || !(isBlank (getCell r URL_COLUMN)))

/-- Dict assignment on a row. -/
def setCell : Row → String → Option String → Row
  | [], c, v => [(c, v)]
  | (c0, v0) :: rest, c, v =>
      if c0 = c then (c0, v) :: rest else (c0, v0) :: setCell rest c v

/-- The folder-column sanitisation of `main` (source lines 549-551):
`fillna('')` on every detected folder column present in the table. -/
def sanitizeFolderCols (folderCols tableCols : List String) (r : Row) : Row :=
  folderCols.foldl
    (fun row c =>
      if c ∈ tableCols then setCell row c (some ((getCell row c).getD (""))) else row)
    r

/-- The error taxonomy of the core: a missing required column. -/
inductive ConvError where
  | SchemaError
deriving Repr, DecidableEq

/-- The decoded table a collaborator hands to the core. -/
structure Table where
  columns : List String
  rows : List Row

/-- The core transformation pipeline of `main` (source lines 522-591):
required-column validation, folder-schema detection, cleaning,
tree construction, rendering, analysis.  On a missing required column the
run fails with `SchemaError` before any later stage runs and yields no
tree, document or statistics. -/
def run_pipeline (tbl : Table) (ts : Nat) :
    Except ConvError (TreeNode × String × ImportStats) :=
  if TITLE_COLUMN ∉ tbl.columns ∨ URL_COLUMN ∉ tbl.columns then
    Except.error ConvError.SchemaError
  else
    let folderCols := detectFolderColumns tbl.columns
    let cleaned := (clean_rows tbl.rows).map (sanitizeFolderCols folderCols tbl.columns)
    let tree := build_bookmark_tree cleaned TITLE_COLUMN URL_COLUMN folderCols
    let doc := full_html tree ts
    let stats := analyze_tree_stats tree 0 { total_bookmarks := 0, folders_per_level := [] }
    Except.ok (tree, doc, stats)

/-! ### Observation functions used by the statements -/

/-- Node of the tree at a folder path. -/
def findNode : TreeNode → List String → Option TreeNode
  | t, [] => some t
  | t, name :: rest =>
      match getChild t.folders name with
      | some c => findNode c rest
      | none => none

/-- Bookmark sequence stored at a path (empty when the path is absent). -/
def bookmarksAt (t : TreeNode) (p : List String) : List BookmarkEntry :=
  ((findNode t p).map TreeNode.bookmarks).getD []

/-- Child-folder names, in stored order, at a path. -/
def childNamesAt (t : TreeNode) (p : List String) : List String :=
  ((findNode t p).map (fun n => n.folders.map Prod.fst)).getD []

/-- When `p` is a proper prefix of `path`, the segment of `path` just after
`p`. -/
def nextSeg : List String → List String → Option String
  | path, [] => path.head?
  | [], _ :: _ => none
  | x :: xs, y :: ys => if x = y then nextSeg xs ys else none

/-- First-occurrence subsequence of a list of names: each name kept at the
position of its first appearance, later duplicates dropped. -/
def firstOccur (l : List String) : List String :=
  l.foldl setInsert []

mutual
/-- All bookmark entries stored anywhere in the tree, in traversal order. -/
def entriesOf : TreeNode → List BookmarkEntry
  | .node bms fs => bms ++ entriesF fs
/-- Entries of a folder list. -/
def entriesF : List (String × TreeNode) → List BookmarkEntry
  | [] => []
  | (_, sub) :: rest => entriesOf sub ++ entriesF rest
end

/-- Markup tokens recognised in the rendered text. -/
inductive Tok where
  | anchor
  | openDL
  | closeDL
deriving Repr, DecidableEq

/-- The text that opens a bookmark anchor. -/
def anchorPat : List Char := ("<DT><A HREF=\"").data

/-- The text of the list-opening tag. -/
def openPat : List Char := ("<DL><p>").data

/-- The text of the list-closing tag. -/
def closePat : List Char := ("</DL><p>").data

/-- Scan a character sequence for anchor openings and list open/close tags,
reporting every occurrence in text order. -/
def scanToks : List Char → List Tok
  | [] => []
  | c :: cs =>
      (if anchorPat.isPrefixOf (c :: cs) then [Tok.anchor]
       else if openPat.isPrefixOf (c :: cs) then [Tok.openDL]
       else if closePat.isPrefixOf (c :: cs) then [Tok.closeDL]
       else []) ++ scanToks cs

/-- `p` agrees with every character of `a` but is longer than `a`: a match
of `p` starting here would have to continue past the end of `a`. -/
def straddles : List Char → List Char → Bool
  | _ :: _, [] => true
  | [], _ => false
  | pc :: ps, ac :: as => pc == ac && straddles ps as

/-- No suffix position of `a` admits a token match that would have to
continue past the end of `a`; scanning is then compositional across a
boundary placed after `a`. -/
def noStraddle : List Char → Bool
  | [] => true
  | c :: cs =>
      !straddles anchorPat (c :: cs) && !straddles openPat (c :: cs)
        && !straddles closePat (c :: cs) && noStraddle cs

/-- `scanToks (a ++ k) = toks ++ scanToks k` for every continuation `k`:
the text `a` contributes exactly `toks`, with no token spanning its end. -/
def ScansTo (a : List Char) (toks : List Tok) : Prop :=
  ∀ k : List Char, scanToks (a ++ k) = toks ++ scanToks k

/-- Keep only the list open/close tokens, as a parenthesis word
(`true` = open). -/
def dlOnly (l : List Tok) : List Bool :=
  l.filterMap (fun t =>
    match t with
    | Tok.openDL => some true
    | Tok.closeDL => some false
    | Tok.anchor => none)

/-- Parenthesis checker: final nesting depth starting from `d`, `none` when
a close appears at depth zero. `checkBal w 0 = some 0` says the word is
balanced: every open is closed and every close matches an open. -/
def checkBal : List Bool → Nat → Option Nat
  | [], d => some d
  | true :: l, d => checkBal l (d + 1)
  | false :: _, 0 => none
  | false :: l, d + 1 => checkBal l d

mutual
/-- The token trace the renderer is expected to produce for a tree: one
anchor per non-skipped bookmark, then per folder an open tag, the child's
trace, and a close tag. -/
def toksOf : TreeNode → List Tok
  | .node bms fs =>
      bms.filterMap (fun e =>
        if escapeHtml e.title = "" ∧ escapeHtml e.url = "" then none else some Tok.anchor)
        ++ toksF fs
/-- Token trace of a folder list. -/
def toksF : List (String × TreeNode) → List Tok
  | [] => []
  | (_, sub) :: rest => Tok.openDL :: (toksOf sub ++ Tok.closeDL :: toksF rest)
end

/-- Level index of a detected column (the digit-run value). -/
def levelOf (c : String) : Nat := (parseFolderCol c).getD 0

/-! ## Basic facts about stripping and escaping -/

theorem escChars_append (a b : List Char) :
    escChars (a ++ b) = escChars a ++ escChars b := by
  induction a with
  | nil => simp [escChars]
  | cons c cs ih => simp [escChars, ih]

theorem escapeHtml_append (s t : String) :
    escapeHtml (s ++ t) = escapeHtml s ++ escapeHtml t := by
  unfold escapeHtml
  rw [String.data_append, escChars_append]
  rfl

theorem escapeChar_data_ne_nil (c : Char) : (escapeChar c).data ≠ [] := by
  unfold escapeChar
  repeat' split
  all_goals first | decide | simp

theorem escapeChar_no_special (c : Char) :
    ∀ d ∈ (escapeChar c).data, d ≠ '<' ∧ d ≠ '>' ∧ d ≠ '"' := by
  intro d hd
  by_cases h1 : c = '&'
  · rw [h1, show (escapeChar '&').data = ['&', 'a', 'm', 'p', ';'] from rfl] at hd
    fin_cases hd <;> exact ⟨by decide, by decide, by decide⟩
  by_cases h2 : c = '<'
  · rw [h2, show (escapeChar '<').data = ['&', 'l', 't', ';'] from rfl] at hd
    fin_cases hd <;> exact ⟨by decide, by decide, by decide⟩
  by_cases h3 : c = '>'
  · rw [h3, show (escapeChar '>').data = ['&', 'g', 't', ';'] from rfl] at hd
    fin_cases hd <;> exact ⟨by decide, by decide, by decide⟩
  by_cases h4 : c = '"'
  · rw [h4, show (escapeChar '"').data = ['&', 'q', 'u', 'o', 't', ';'] from rfl] at hd
    fin_cases hd <;> exact ⟨by decide, by decide, by decide⟩
  by_cases h5 : c = Char.ofNat 39
  · rw [h5, show (escapeChar (Char.ofNat 39)).data = ['&', '#', 'x', '2', '7', ';'] from rfl] at hd
    fin_cases hd <;> exact ⟨by decide, by decide, by decide⟩
  · have e : escapeChar c = String.mk [c] := by
      unfold escapeChar
      rw [if_neg h1, if_neg h2, if_neg h3, if_neg h4, if_neg h5]
    rw [e] at hd
    have hdc : d = c := by
      have e2 : (String.mk [c]).data = [c] := rfl
      rw [e2] at hd
      simpa using hd
    subst hdc
    exact ⟨h2, h3, h4⟩

theorem escChars_no_special (l : List Char) :
    ∀ d ∈ escChars l, d ≠ '<' ∧ d ≠ '>' ∧ d ≠ '"' := by
  induction l with
  | nil => intro d hd; cases hd
  | cons c cs ih =>
      intro d hd
      rcases List.mem_append.mp hd with h | h
      · exact escapeChar_no_special c d h
      · exact ih d h

theorem escapeHtml_no_special (s : String) :
    ∀ d ∈ (escapeHtml s).data, d ≠ '<' ∧ d ≠ '>' ∧ d ≠ '"' := by
  intro d hd
  exact escChars_no_special s.data d hd

theorem escChars_eq_nil_iff (l : List Char) : escChars l = [] ↔ l = [] := by
  cases l with
  | nil => simp [escChars]
  | cons c cs =>
      simp only [escChars]
      constructor
      · intro h
        exact absurd (List.append_eq_nil.mp h).1 (escapeChar_data_ne_nil c)
      · intro h
        exact absurd h (List.cons_ne_nil c cs)

theorem stringMk_inj (a b : List Char) : String.mk a = String.mk b ↔ a = b := by
  constructor
  · intro h
    exact congrArg String.data h
  · intro h
    rw [h]

theorem escapeHtml_eq_empty_iff (s : String) : escapeHtml s = "" ↔ s = "" := by
  cases s with
  | mk data =>
      unfold escapeHtml
      rw [show ("" : String) = String.mk [] from rfl, stringMk_inj, stringMk_inj]
      exact escChars_eq_nil_iff data

/-- C7: a title or URL containing any of the characters lt, gt, amp, quot
renders with each occurrence replaced by its markup-safe entity (escaping
distributes over concatenation and maps each special character to its
entity), the raw characters lt, gt, quot never occur in escaped text, and
the exact title/URL and folder-name slots emitted by the renderer
(`bookmarkLineOpt` and `headingLine`) never contain a raw special
character. -/
theorem escaping_replaces_specials (s t : String) :
    escapeHtml (s ++ t) = escapeHtml s ++ escapeHtml t
      ∧ escapeHtml ("<") = "&lt;" ∧ escapeHtml (">") = "&gt;"
      ∧ escapeHtml ("&") = "&amp;" ∧ escapeHtml ("\"") = "&quot;"
      ∧ (∀ c : Char, c ≠ '&' → c ≠ '<' → c ≠ '>' → c ≠ '"' → c ≠ Char.ofNat 39 →
          escapeHtml (String.mk [c]) = String.mk [c])
      ∧ (∀ d ∈ (escapeHtml s).data, d ≠ '<' ∧ d ≠ '>' ∧ d ≠ '"')
      ∧ (∀ e : BookmarkEntry,
          ∀ d ∈ ((if escapeHtml e.title = "" then ("Untitled Bookmark") else escapeHtml e.title)
              ++ (if escapeHtml e.url = "" then ("#") else escapeHtml e.url)).data,
            d ≠ '<' ∧ d ≠ '>' ∧ d ≠ '"')
      ∧ (∀ name : String,
          ∀ d ∈ (if escapeHtml name = "" then ("Untitled Folder") else escapeHtml name).data,
            d ≠ '<' ∧ d ≠ '>' ∧ d ≠ '"') := by
  have slot : ∀ (u : String) (ph : String),
      (∀ d ∈ ph.data, d ≠ '<' ∧ d ≠ '>' ∧ d ≠ '"') →
      ∀ d ∈ (if escapeHtml u = "" then ph else escapeHtml u).data,
        d ≠ '<' ∧ d ≠ '>' ∧ d ≠ '"' := by
    intro u ph hph d hd
    by_cases hu : escapeHtml u = ""
    · rw [if_pos hu] at hd
      exact hph d hd
    · rw [if_neg hu] at hd
      exact escapeHtml_no_special u d hd
  refine ⟨escapeHtml_append s t, rfl, rfl, rfl, rfl, ?_, escapeHtml_no_special s, ?_, ?_⟩
  · intro c hc1 hc2 hc3 hc4 hc5
    unfold escapeHtml escChars escapeChar
    rw [if_neg hc1, if_neg hc2, if_neg hc3, if_neg hc4, if_neg hc5]
    rfl
  · intro e d hd
    rw [String.data_append] at hd
    rcases List.mem_append.mp hd with h | h
    · exact slot e.title ("Untitled Bookmark") (by decide) d h
    · exact slot e.url ("#") (by decide) d h
  · intro name
    exact slot name ("Untitled Folder") (by decide)

/-- C7 witness: instantiation at a concrete title containing all four
special characters. -/
theorem escaping_replaces_specials_witness :
    escapeHtml ("a<b" ++ ">&\"") = escapeHtml ("a<b") ++ escapeHtml (">&\"")
      ∧ (∀ d ∈ (escapeHtml ("a<b")).data, d ≠ '<' ∧ d ≠ '>' ∧ d ≠ '"') :=
  ⟨(escaping_replaces_specials ("a<b") (">&\"")).1,
    (escaping_replaces_specials ("a<b") (">&\"")).2.2.2.2.2.2.1⟩

/-! ## C2: first-gap-terminates -/

theorem extractPath_all_nonblank (r : Row) (pre : List String) (rest : List String) :
    (∀ c' ∈ pre, isBlank (getCell r c') = false) →
    extractPath r (pre ++ rest)
      = pre.map (fun c' => strip ((getCell r c').getD (""))) ++ extractPath r rest := by
  induction pre with
  | nil => intro _; simp
  | cons a as ih =>
      intro hpre
      have ha : isBlank (getCell r a) = false := hpre a (List.mem_cons_self a as)
      have ih' := ih (fun c' hc' => hpre c' (List.mem_cons_of_mem a hc'))
      simp [extractPath, ha, ih']

/-- C2: walking the schema columns in depth order, the first column whose
cell is absent or strips to empty ends path extraction; every deeper
column is ignored whatever its content, and the extracted path is exactly
the stripped non-empty prefix. -/
theorem first_gap_terminates (r : Row) (pre : List String) (c : String) (post post' : List String)
    (hpre : ∀ c' ∈ pre, isBlank (getCell r c') = false)
    (hc : isBlank (getCell r c) = true) :
    extractPath r (pre ++ c :: post) = pre.map (fun c' => strip ((getCell r c').getD ("")))
      ∧ extractPath r (pre ++ c :: post) = extractPath r (pre ++ c :: post') := by
  have key : ∀ post'' : List String,
      extractPath r (pre ++ c :: post'') = pre.map (fun c' => strip ((getCell r c').getD (""))) := by
    intro post''
    rw [extractPath_all_nonblank r pre (c :: post'') hpre]
    simp [extractPath, hc]
  exact ⟨key post, (key post).trans (key post').symm⟩

/-- C2 witness: a blank second column hides a populated third column. -/
theorem first_gap_terminates_witness :
    extractPath [(("FolderL1" : String), some ("Work")), ("FolderL2", some (" ")), ("FolderL3", some ("Deep"))]
        (["FolderL1"] ++ "FolderL2" :: ["FolderL3"])
      = ["FolderL1"].map (fun c' =>
          strip ((getCell [(("FolderL1" : String), some ("Work")), ("FolderL2", some (" ")), ("FolderL3", some ("Deep"))] c').getD (""))) :=
  (first_gap_terminates
    [(("FolderL1" : String), some ("Work")), ("FolderL2", some (" ")), ("FolderL3", some ("Deep"))]
    ["FolderL1"] "FolderL2" ["FolderL3"] [] (by decide) (by decide)).1

/-! ## C4: row cleaning -/

/-- C4: cleaning drops a row exactly when both the title cell and the URL
cell are blank after stripping, and retains it exactly when at least one
of them is present and non-blank. -/
theorem clean_rows_drop_iff (rows : List Row) (r : Row) (h : r ∈ rows) :
    (r ∉ clean_rows rows ↔
        (isBlank (getCell r TITLE_COLUMN) = true ∧ isBlank (getCell r URL_COLUMN) = true))
      ∧ (r ∈ clean_rows rows ↔
        (isBlank (getCell r TITLE_COLUMN) = false ∨ isBlank (getCell r URL_COLUMN) = false)) := by
  have hm : r ∈ clean_rows rows ↔
      (isBlank (getCell r TITLE_COLUMN) = false ∨ isBlank (getCell r URL_COLUMN) = false) := by
    unfold clean_rows
    rw [List.mem_filter]
    simp [h]
  refine ⟨?_, hm⟩
  rw [hm]
  constructor
  · intro hq
    constructor
    · cases hb : isBlank (getCell r TITLE_COLUMN) with
      | false => exact absurd (Or.inl hb) hq
      | true => rfl
    · cases hb : isBlank (getCell r URL_COLUMN) with
      | false => exact absurd (Or.inr hb) hq
      | true => rfl
  · intro hq hcon
    rcases hcon with hb | hb
    · rw [hq.1] at hb; cases hb
    · rw [hq.2] at hb; cases hb

/-- C4 witness: a row with a blank title but a non-blank URL is retained;
a fully blank row is dropped. -/
theorem clean_rows_drop_iff_witness :
    ([(("Title" : String), some ("")), ("URL", some ("u"))] : Row) ∈
        clean_rows [[(("Title" : String), some ("")), ("URL", some ("u"))], [("Title", none), ("URL", some (" "))]]
      ∧ ([(("Title" : String), none), ("URL", some (" "))] : Row) ∉
        clean_rows [[(("Title" : String), some ("")), ("URL", some ("u"))], [("Title", none), ("URL", some (" "))]] :=
  ⟨((clean_rows_drop_iff _ _ (by decide)).2).mpr (by decide),
    ((clean_rows_drop_iff _ _ (by decide)).1).mpr (by decide)⟩

/-! ## C9: schema error -/

/-- C9: when the required title column or URL column is missing from the
table, the pipeline fails with SchemaError and produces no tree, document
or statistics. -/
theorem schema_error_fails_fast (tbl : Table) (ts : Nat)
    (h : TITLE_COLUMN ∉ tbl.columns ∨ URL_COLUMN ∉ tbl.columns) :
    run_pipeline tbl ts = Except.error ConvError.SchemaError := by
  unfold run_pipeline
  rw [if_pos h]

/-- C9 witness: a table having only a URL column fails with SchemaError. -/
theorem schema_error_fails_fast_witness :
    run_pipeline { columns := ["URL", "FolderL1"], rows := [] } 7
      = Except.error ConvError.SchemaError :=
  schema_error_fails_fast { columns := ["URL", "FolderL1"], rows := [] } 7 (by decide)

/-! ## C3: folder-schema detection -/

theorem dropLit_eq_some_iff (p : List Char) :
    ∀ (l r : List Char), dropLit p l = some r ↔ l = p ++ r := by
  induction p with
  | nil =>
      intro l r
      simp [dropLit]
  | cons pc ps ih =>
      intro l r
      cases l with
      | nil =>
          simp [dropLit]
      | cons c cs =>
          simp only [dropLit]
          by_cases h : pc = c
          · rw [if_pos h, ih cs r]
            subst h
            simp
          · rw [if_neg h]
            constructor
            · intro hh
              exact Option.noConfusion hh
            · intro hh
              injection hh with h1 _
              exact absurd h1.symm h

theorem parseFolderCol_eq_some_iff (s : String) (n : Nat) :
    parseFolderCol s = some n ↔
      ∃ ds : List Char, s.data = ("FolderL").data ++ ds ∧ ds ≠ []
        ∧ ds.all Char.isDigit = true ∧ digitsVal ds = n := by
  rcases hdl : dropLit ("FolderL").data s.data with _ | ds
  · rw [parseFolderCol, hdl]
    constructor
    · intro h
      exact Option.noConfusion h
    · rintro ⟨ds, hds, -, -, -⟩
      have := (dropLit_eq_some_iff ("FolderL").data s.data ds).mpr hds
      rw [hdl] at this
      exact Option.noConfusion this
  · have hred : parseFolderCol s
        = if (!ds.isEmpty && ds.all Char.isDigit) = true then some (digitsVal ds) else none := by
      rw [parseFolderCol, hdl]
    rw [hred]
    have hsd : s.data = ("FolderL").data ++ ds :=
      (dropLit_eq_some_iff ("FolderL").data s.data ds).mp hdl
    by_cases hc : (!ds.isEmpty && ds.all Char.isDigit) = true
    · rw [if_pos hc]
      rcases (Bool.and_eq_true _ _).mp hc with ⟨hc1, hc2⟩
      have hne : ds ≠ [] := by
        intro hnil
        rw [hnil] at hc1
        exact Bool.noConfusion hc1
      constructor
      · intro h
        injection h with h'
        exact ⟨ds, hsd, hne, hc2, h'⟩
      · rintro ⟨ds', hds', -, -, hval'⟩
        have : ds = ds' := by
          have h2 := (dropLit_eq_some_iff ("FolderL").data s.data ds').mpr hds'
          rw [hdl] at h2
          injection h2
        rw [this, hval']
    · rw [if_neg hc]
      constructor
      · intro h
        exact Option.noConfusion h
      · rintro ⟨ds', hds', hne', hdig', -⟩
        have hdd : ds = ds' := by
          have h2 := (dropLit_eq_some_iff ("FolderL").data s.data ds').mpr hds'
          rw [hdl] at h2
          injection h2
        subst hdd
        refine absurd ((Bool.and_eq_true _ _).mpr ⟨?_, hdig'⟩) hc
        cases hds0 : ds with
        | nil => exact absurd hds0 hne'
        | cons a as => rfl

theorem mem_detect_pairs (cols : List String) (p : Nat × String) :
    p ∈ cols.filterMap (fun c => (parseFolderCol c).map (fun n => (n, c)))
      ↔ p.2 ∈ cols ∧ parseFolderCol p.2 = some p.1 := by
  rw [List.mem_filterMap]
  constructor
  · rintro ⟨c, hc, hfc⟩
    rcases Option.map_eq_some'.mp hfc with ⟨n, hn, hpair⟩
    cases hpair
    exact ⟨hc, hn⟩
  · rintro ⟨hc, hp⟩
    exact ⟨p.2, hc, by rw [hp]; rfl⟩

/-- C3: the detected folder schema holds exactly the column names that
fully match the pattern (literal FolderL followed by one or more decimal
digits and nothing else), sorted ascending by the extracted level number;
non-matching columns never appear, and an empty or match-free input gives
an empty schema. -/
theorem schema_detection_correct (cols : List String) :
    (∀ c, c ∈ detectFolderColumns cols ↔ c ∈ cols ∧ (parseFolderCol c).isSome = true)
      ∧ (detectFolderColumns cols).Pairwise (fun a b => levelOf a ≤ levelOf b)
      ∧ (∀ (s : String) (n : Nat), parseFolderCol s = some n ↔
          ∃ ds : List Char, s.data = ("FolderL").data ++ ds ∧ ds ≠ []
            ∧ ds.all Char.isDigit = true ∧ digitsVal ds = n)
      ∧ ((∀ c ∈ cols, parseFolderCol c = none) → detectFolderColumns cols = [])
      ∧ detectFolderColumns [] = [] := by
  refine ⟨?_, ?_, parseFolderCol_eq_some_iff, ?_, rfl⟩
  · intro c
    unfold detectFolderColumns
    rw [List.mem_map]
    constructor
    · rintro ⟨p, hp, hpc⟩
      rw [List.mem_insertionSort] at hp
      rcases (mem_detect_pairs cols p).mp hp with ⟨hc, hparse⟩
      subst hpc
      exact ⟨hc, by rw [hparse]; rfl⟩
    · rintro ⟨hc, hsome⟩
      rcases Option.isSome_iff_exists.mp hsome with ⟨n, hn⟩
      refine ⟨(n, c), ?_, rfl⟩
      rw [List.mem_insertionSort]
      exact (mem_detect_pairs cols (n, c)).mpr ⟨hc, hn⟩
  · unfold detectFolderColumns
    rw [List.pairwise_map]
    haveI : IsTotal (Nat × String) (fun a b : Nat × String => a.1 ≤ b.1) :=
      ⟨fun a b => Nat.le_total a.1 b.1⟩
    haveI : IsTrans (Nat × String) (fun a b : Nat × String => a.1 ≤ b.1) :=
      ⟨fun _ _ _ h1 h2 => Nat.le_trans h1 h2⟩
    have hsorted := List.sorted_insertionSort (fun a b : Nat × String => a.1 ≤ b.1)
      (cols.filterMap (fun c => (parseFolderCol c).map (fun n => (n, c))))
    refine List.Pairwise.imp_of_mem ?_ hsorted
    intro a b ha hb hab
    rw [List.mem_insertionSort] at ha hb
    have ha' := ((mem_detect_pairs cols a).mp ha).2
    have hb' := ((mem_detect_pairs cols b).mp hb).2
    unfold levelOf
    rw [ha', hb']
    exact hab
  · intro hnone
    unfold detectFolderColumns
    have : cols.filterMap (fun c => (parseFolderCol c).map (fun n => (n, c))) = [] := by
      rw [List.filterMap_eq_nil_iff]
      intro c hc
      rw [hnone c hc]
      rfl
    rw [this]
    rfl

/-- C3 witness: a mixed header row; the matching columns appear sorted by
level, the non-matching ones are excluded. -/
theorem schema_detection_correct_witness :
    ("FolderL2" ∈ detectFolderColumns ["URL", "FolderL2", "Folder", "FolderL1", "FolderL1x"])
      ∧ ("FolderL1x" ∉ detectFolderColumns ["URL", "FolderL2", "Folder", "FolderL1", "FolderL1x"]) :=
  ⟨((schema_detection_correct ["URL", "FolderL2", "Folder", "FolderL1", "FolderL1x"]).1 ("FolderL2")).mpr
      (by decide),
    fun h => by
      have := ((schema_detection_correct ["URL", "FolderL2", "Folder", "FolderL1", "FolderL1x"]).1 ("FolderL1x")).mp h
      exact absurd this.2 (by decide)⟩

/-! ## Tree access and update lemmas -/

theorem getChild_setChild_self (fs : List (String × TreeNode)) (name : String) (c : TreeNode) :
    getChild (setChild fs name c) name = some c := by
  induction fs with
  | nil => simp [setChild, getChild]
  | cons q rest ih =>
      obtain ⟨n, c0⟩ := q
      by_cases hn : n = name
      · simp [setChild, getChild, hn]
      · simp [setChild, getChild, hn, ih]

theorem getChild_setChild_ne (fs : List (String × TreeNode)) (name name' : String) (c : TreeNode)
    (h : name' ≠ name) :
    getChild (setChild fs name c) name' = getChild fs name' := by
  induction fs with
  | nil => simp [setChild, getChild, Ne.symm h]
  | cons q rest ih =>
      obtain ⟨n, c0⟩ := q
      by_cases hn : n = name
      · subst hn
        simp [setChild, getChild, Ne.symm h]
      · by_cases hn' : n = name'
        · simp [setChild, getChild, hn, hn', h]
        · simp [setChild, getChild, hn, hn', ih]

theorem namesOf_setChild (fs : List (String × TreeNode)) (name : String) (c : TreeNode) :
    (setChild fs name c).map Prod.fst = setInsert (fs.map Prod.fst) name := by
  induction fs with
  | nil => simp [setChild, setInsert]
  | cons q rest ih =>
      obtain ⟨n, c0⟩ := q
      by_cases hn : n = name
      · subst hn
        simp [setChild, setInsert]
      · have key : (name ∈ n :: rest.map Prod.fst) ↔ (name ∈ rest.map Prod.fst) := by
          constructor
          · intro h1
            rcases List.mem_cons.mp h1 with h2 | h2
            · exact absurd h2.symm hn
            · exact h2
          · exact List.mem_cons_of_mem n
        simp only [setChild, if_neg hn, List.map_cons, setInsert, ih, key]
        by_cases hm : name ∈ rest.map Prod.fst
        · rw [if_pos hm, if_pos hm]
        · rw [if_neg hm, if_neg hm]
          simp

theorem bookmarksAt_nil (t : TreeNode) : bookmarksAt t [] = t.bookmarks := rfl

theorem childNamesAt_nil (t : TreeNode) : childNamesAt t [] = t.folders.map Prod.fst := rfl

theorem bookmarksAt_node_some (bms : List BookmarkEntry) (fs : List (String × TreeNode))
    (y : String) (ys : List String) (c : TreeNode) (h : getChild fs y = some c) :
    bookmarksAt (TreeNode.node bms fs) (y :: ys) = bookmarksAt c ys := by
  simp [bookmarksAt, findNode, TreeNode.folders, h]

theorem bookmarksAt_node_none (bms : List BookmarkEntry) (fs : List (String × TreeNode))
    (y : String) (ys : List String) (h : getChild fs y = none) :
    bookmarksAt (TreeNode.node bms fs) (y :: ys) = [] := by
  simp [bookmarksAt, findNode, TreeNode.folders, h]

theorem childNamesAt_node_some (bms : List BookmarkEntry) (fs : List (String × TreeNode))
    (y : String) (ys : List String) (c : TreeNode) (h : getChild fs y = some c) :
    childNamesAt (TreeNode.node bms fs) (y :: ys) = childNamesAt c ys := by
  simp [childNamesAt, findNode, TreeNode.folders, h]

theorem childNamesAt_node_none (bms : List BookmarkEntry) (fs : List (String × TreeNode))
    (y : String) (ys : List String) (h : getChild fs y = none) :
    childNamesAt (TreeNode.node bms fs) (y :: ys) = [] := by
  simp [childNamesAt, findNode, TreeNode.folders, h]

theorem bookmarksAt_node_nil (bms : List BookmarkEntry) (fs : List (String × TreeNode)) :
    bookmarksAt (TreeNode.node bms fs) [] = bms := rfl

theorem childNamesAt_node_nil (bms : List BookmarkEntry) (fs : List (String × TreeNode)) :
    childNamesAt (TreeNode.node bms fs) [] = fs.map Prod.fst := rfl

theorem addBookmarkAt_node_cons (bms : List BookmarkEntry) (fs : List (String × TreeNode))
    (f : String) (rest : List String) (bm? : Option BookmarkEntry) :
    addBookmarkAt (TreeNode.node bms fs) (f :: rest) bm?
      = TreeNode.node bms (setChild fs f (addBookmarkAt ((getChild fs f).getD emptyNode) rest bm?)) :=
  rfl

theorem addBookmarkAt_node_nil_some (bms : List BookmarkEntry) (fs : List (String × TreeNode))
    (bm : BookmarkEntry) :
    addBookmarkAt (TreeNode.node bms fs) [] (some bm) = TreeNode.node (bms ++ [bm]) fs :=
  rfl

theorem bookmarksAt_emptyNode (p : List String) : bookmarksAt emptyNode p = [] := by
  cases p <;> rfl

theorem childNamesAt_emptyNode (p : List String) : childNamesAt emptyNode p = [] := by
  cases p <;> rfl

theorem addBookmarkAt_cons (t : TreeNode) (f : String) (rest : List String)
    (bm? : Option BookmarkEntry) :
    addBookmarkAt t (f :: rest) bm?
      = TreeNode.node t.bookmarks
          (setChild t.folders f (addBookmarkAt ((getChild t.folders f).getD emptyNode) rest bm?)) :=
  rfl


theorem childNamesAt_addBookmarkAt (p : List String) :
    ∀ (t : TreeNode) (path : List String) (bm? : Option BookmarkEntry),
      childNamesAt (addBookmarkAt t path bm?) p =
        match nextSeg path p with
        | some x => setInsert (childNamesAt t p) x
        | none => childNamesAt t p := by
  induction p with
  | nil =>
      intro t path bm?
      obtain ⟨bms, fs⟩ := t
      cases path with
      | nil =>
          cases bm? with
          | none => rfl
          | some bm => rfl
      | cons x xs =>
          rw [addBookmarkAt_node_cons, childNamesAt_node_nil, childNamesAt_node_nil,
            namesOf_setChild]
          rfl
  | cons y ys ih =>
      intro t path bm?
      obtain ⟨bms, fs⟩ := t
      cases path with
      | nil =>
          cases bm? with
          | none => rfl
          | some bm =>
              rw [addBookmarkAt_node_nil_some]
              show childNamesAt (TreeNode.node (bms ++ [bm]) fs) (y :: ys)
                = childNamesAt (TreeNode.node bms fs) (y :: ys)
              rcases hg : getChild fs y with _ | c
              · rw [childNamesAt_node_none (bms ++ [bm]) fs y ys hg,
                  childNamesAt_node_none bms fs y ys hg]
              · rw [childNamesAt_node_some (bms ++ [bm]) fs y ys c hg,
                  childNamesAt_node_some bms fs y ys c hg]
      | cons x xs =>
          rw [addBookmarkAt_node_cons]
          by_cases hxy : x = y
          · subst hxy
            have hset := getChild_setChild_self fs x
              (addBookmarkAt ((getChild fs x).getD emptyNode) xs bm?)
            rw [childNamesAt_node_some bms _ x ys _ hset, ih]
            have e : nextSeg (x :: xs) (x :: ys) = nextSeg xs ys := by simp [nextSeg]
            rw [e]
            rcases hg : getChild fs x with _ | c
            · rw [childNamesAt_node_none bms fs x ys hg]
              simp [childNamesAt_emptyNode]
            · rw [childNamesAt_node_some bms fs x ys c hg]
              simp
          · have hset := getChild_setChild_ne fs x y
              (addBookmarkAt ((getChild fs x).getD emptyNode) xs bm?) (fun hh => hxy hh.symm)
            have e : nextSeg (x :: xs) (y :: ys) = none := by simp [nextSeg, hxy]
            rw [e]
            rcases hg : getChild fs y with _ | c
            · rw [childNamesAt_node_none bms _ y ys (hset.trans hg),
                childNamesAt_node_none bms fs y ys hg]
            · rw [childNamesAt_node_some bms _ y ys c (hset.trans hg),
                childNamesAt_node_some bms fs y ys c hg]

theorem bookmarksAt_addBookmarkAt (p : List String) :
    ∀ (t : TreeNode) (path : List String) (bm? : Option BookmarkEntry),
      bookmarksAt (addBookmarkAt t path bm?) p =
        if p = path then bookmarksAt t p ++ bm?.toList else bookmarksAt t p := by
  induction p with
  | nil =>
      intro t path bm?
      obtain ⟨bms, fs⟩ := t
      cases path with
      | nil =>
          rw [if_pos rfl]
          cases bm? with
          | none =>
              show bookmarksAt (TreeNode.node bms fs) []
                = bookmarksAt (TreeNode.node bms fs) [] ++ (none : Option BookmarkEntry).toList
              simp
          | some bm =>
              rw [addBookmarkAt_node_nil_some, bookmarksAt_node_nil, bookmarksAt_node_nil]
              simp [Option.toList]
      | cons x xs =>
          rw [if_neg (by simp), addBookmarkAt_node_cons, bookmarksAt_node_nil,
            bookmarksAt_node_nil]
  | cons y ys ih =>
      intro t path bm?
      obtain ⟨bms, fs⟩ := t
      cases path with
      | nil =>
          rw [if_neg (by simp)]
          cases bm? with
          | none => rfl
          | some bm =>
              rw [addBookmarkAt_node_nil_some]
              rcases hg : getChild fs y with _ | c
              · rw [bookmarksAt_node_none (bms ++ [bm]) fs y ys hg,
                  bookmarksAt_node_none bms fs y ys hg]
              · rw [bookmarksAt_node_some (bms ++ [bm]) fs y ys c hg,
                  bookmarksAt_node_some bms fs y ys c hg]
      | cons x xs =>
          rw [addBookmarkAt_node_cons]
          by_cases hxy : x = y
          · subst hxy
            have hset := getChild_setChild_self fs x
              (addBookmarkAt ((getChild fs x).getD emptyNode) xs bm?)
            rw [bookmarksAt_node_some bms _ x ys _ hset, ih]
            by_cases hyx : ys = xs
            · rw [if_pos hyx, if_pos (by rw [hyx])]
              rcases hg : getChild fs x with _ | c
              · rw [bookmarksAt_node_none bms fs x ys hg]
                simp [bookmarksAt_emptyNode]
              · rw [bookmarksAt_node_some bms fs x ys c hg]
                simp
            · rw [if_neg hyx, if_neg (by simp [hyx])]
              rcases hg : getChild fs x with _ | c
              · rw [bookmarksAt_node_none bms fs x ys hg]
                simp [bookmarksAt_emptyNode]
              · rw [bookmarksAt_node_some bms fs x ys c hg]
                simp
          · have hset := getChild_setChild_ne fs x y
              (addBookmarkAt ((getChild fs x).getD emptyNode) xs bm?) (fun hh => hxy hh.symm)
            rw [if_neg (by simp [Ne.symm hxy])]
            rcases hg : getChild fs y with _ | c
            · rw [bookmarksAt_node_none bms _ y ys (hset.trans hg),
                bookmarksAt_node_none bms fs y ys hg]
            · rw [bookmarksAt_node_some bms _ y ys c (hset.trans hg),
                bookmarksAt_node_some bms fs y ys c hg]

theorem childNamesAt_build_go (cols : List String) (tc uc : String) :
    ∀ (rows : List Row) (t : TreeNode) (p : List String),
      childNamesAt
          (rows.foldl (fun t r => addBookmarkAt t (extractPath r cols) (rowBookmark r tc uc)) t) p
        = (rows.filterMap (fun r => nextSeg (extractPath r cols) p)).foldl setInsert
            (childNamesAt t p) := by
  intro rows
  induction rows with
  | nil => intro t p; rfl
  | cons r rows ih =>
      intro t p
      rw [List.foldl_cons, List.filterMap_cons, ih, childNamesAt_addBookmarkAt]
      rcases hn : nextSeg (extractPath r cols) p with _ | x
      all_goals simp

theorem bookmarksAt_build_go (cols : List String) (tc uc : String) :
    ∀ (rows : List Row) (t : TreeNode) (p : List String),
      bookmarksAt
          (rows.foldl (fun t r => addBookmarkAt t (extractPath r cols) (rowBookmark r tc uc)) t) p
        = bookmarksAt t p
          ++ rows.filterMap
              (fun r => if extractPath r cols = p then rowBookmark r tc uc else none) := by
  intro rows
  induction rows with
  | nil => intro t p; simp
  | cons r rows ih =>
      intro t p
      rw [List.foldl_cons, List.filterMap_cons, ih, bookmarksAt_addBookmarkAt]
      by_cases hp : p = extractPath r cols
      · rw [if_pos hp, if_pos hp.symm]
        rcases hb : rowBookmark r tc uc with _ | bm
        · simp [Option.toList]
        · simp [Option.toList]
      · rw [if_neg hp, if_neg (fun hh => hp hh.symm)]

/-- C1: rows are processed strictly in input order: at every node (reached
by folder path `p`) of the built tree, the child-folder names are the
first occurrences, in row order, of the names requested directly below
`p`, with new children appended at the end of the ordering; and the
node's bookmark sequence lists, in input row order, the entries of the
rows whose extracted folder path is exactly `p`. -/
theorem build_tree_order (rows : List Row) (cols : List String) (tc uc : String)
    (p : List String) :
    childNamesAt (build_bookmark_tree rows tc uc cols) p
        = firstOccur (rows.filterMap (fun r => nextSeg (extractPath r cols) p))
      ∧ bookmarksAt (build_bookmark_tree rows tc uc cols) p
        = rows.filterMap
            (fun r => if extractPath r cols = p then rowBookmark r tc uc else none) := by
  constructor
  · unfold build_bookmark_tree
    rw [childNamesAt_build_go cols tc uc rows emptyNode p, childNamesAt_emptyNode]
    rfl
  · unfold build_bookmark_tree
    rw [bookmarksAt_build_go cols tc uc rows emptyNode p, bookmarksAt_emptyNode]
    simp

/-- C5: the bookmark entry appended at the destination node carries the
stripped title cell, or the fixed placeholder when the title is blank, and
the stripped URL cell, or its fixed placeholder when blank; when both
cells are blank, no entry is created at any node and the step is a
harmless no-op. -/
theorem bookmark_entry_rules (t : TreeNode) (r : Row) (cols : List String) (tc uc : String) :
    ((isBlank (getCell r tc) = false ∨ isBlank (getCell r uc) = false) →
      bookmarksAt (addBookmarkAt t (extractPath r cols) (rowBookmark r tc uc))
          (extractPath r cols)
        = bookmarksAt t (extractPath r cols)
          ++ [{ title := if isBlank (getCell r tc) then "Untitled Bookmark"
                  else strip ((getCell r tc).getD (""))
              , url := if isBlank (getCell r uc) then "#"
                  else strip ((getCell r uc).getD ("")) }])
      ∧ (isBlank (getCell r tc) = true → isBlank (getCell r uc) = true →
          ∀ q : List String,
            bookmarksAt (addBookmarkAt t (extractPath r cols) (rowBookmark r tc uc)) q
              = bookmarksAt t q) := by
  constructor
  · intro hor
    rw [bookmarksAt_addBookmarkAt, if_pos rfl]
    have hb : rowBookmark r tc uc
        = some { title := if isBlank (getCell r tc) then "Untitled Bookmark"
                  else strip ((getCell r tc).getD (""))
               , url := if isBlank (getCell r uc) then "#"
                  else strip ((getCell r uc).getD ("")) } := by
      simp only [rowBookmark]
      rw [if_neg (fun hcc => ?_)]
      rcases hor with h | h
      · rw [h] at hcc
        simp at hcc
      · rw [h] at hcc
        simp at hcc
    rw [hb]
    rfl
  · intro ht hu q
    have hb : rowBookmark r tc uc = none := by
      simp only [rowBookmark]
      rw [if_pos (by rw [ht, hu]; rfl)]
    rw [hb, bookmarksAt_addBookmarkAt]
    split <;> simp

/-- C5 witness: a row with a title and no URL lands at the root with the
stripped title and the URL placeholder. -/
theorem bookmark_entry_rules_witness :
    bookmarksAt
        (addBookmarkAt emptyNode (extractPath [(("T" : String), some ("x"))] [])
          (rowBookmark [(("T" : String), some ("x"))] ("T") ("U")))
        (extractPath [(("T" : String), some ("x"))] [])
      = bookmarksAt emptyNode (extractPath [(("T" : String), some ("x"))] [])
        ++ [{ title := if isBlank (getCell [(("T" : String), some ("x"))] ("T"))
                then "Untitled Bookmark"
                else strip ((getCell [(("T" : String), some ("x"))] ("T")).getD (""))
            , url := if isBlank (getCell [(("T" : String), some ("x"))] ("U")) then "#"
                else strip ((getCell [(("T" : String), some ("x"))] ("U")).getD ("")) }] :=
  (bookmark_entry_rules emptyNode [(("T" : String), some ("x"))] [] ("T") ("U")).1
    (Or.inl (by decide))

/-! ## Strong induction over the tree -/

theorem treeNode_strongInduction {motive : TreeNode → Prop}
    (node : ∀ bms fs, (∀ q ∈ fs, motive (Prod.snd q)) → motive (TreeNode.node bms fs)) :
    ∀ t, motive t := by
  have H : ∀ (n : Nat) (t : TreeNode), sizeOf t ≤ n → motive t := by
    intro n
    induction n with
    | zero =>
        intro t ht
        obtain ⟨bms, fs⟩ := t
        exfalso
        have hs : sizeOf (TreeNode.node bms fs) = 1 + sizeOf bms + sizeOf fs := by simp
        omega
    | succ n ihn =>
        intro t ht
        obtain ⟨bms, fs⟩ := t
        refine node bms fs ?_
        intro q hq
        refine ihn q.2 ?_
        have h1 : sizeOf q < sizeOf fs := List.sizeOf_lt_of_mem hq
        have h2 : sizeOf q.2 < sizeOf q := by
          obtain ⟨a, b⟩ := q
          simp
        have h3 : sizeOf (TreeNode.node bms fs) = 1 + sizeOf bms + sizeOf fs := by simp
        omega
  intro t
  exact H (sizeOf t) t le_rfl

/-! ## Entries of a tree; the builder invariant (C10) -/

theorem entriesOf_node (bms : List BookmarkEntry) (fs : List (String × TreeNode)) :
    entriesOf (TreeNode.node bms fs) = bms ++ entriesF fs := by
  rw [entriesOf]

theorem entriesF_nil : entriesF [] = [] := by
  rw [entriesF]

theorem entriesF_cons (name : String) (sub : TreeNode) (rest : List (String × TreeNode)) :
    entriesF ((name, sub) :: rest) = entriesOf sub ++ entriesF rest := by
  rw [entriesF]

theorem entriesOf_emptyNode : entriesOf emptyNode = [] := by
  rw [emptyNode, entriesOf_node, entriesF_nil]
  rfl

theorem mem_entriesF_of_getChild (name : String) (c : TreeNode) :
    ∀ fs : List (String × TreeNode), getChild fs name = some c →
      ∀ e ∈ entriesOf c, e ∈ entriesF fs := by
  intro fs
  induction fs with
  | nil =>
      intro h
      exact absurd h (by simp [getChild])
  | cons q rest ih =>
      obtain ⟨n, c0⟩ := q
      intro h e he
      rw [entriesF_cons]
      by_cases hnn : n = name
      · simp only [getChild, if_pos hnn] at h
        injection h with h'
        subst h'
        exact List.mem_append.mpr (Or.inl he)
      · simp only [getChild, if_neg hnn] at h
        exact List.mem_append.mpr (Or.inr (ih h e he))

theorem mem_entriesF_setChild (name : String) (c' : TreeNode) :
    ∀ (fs : List (String × TreeNode)) (e : BookmarkEntry),
      e ∈ entriesF (setChild fs name c') → e ∈ entriesF fs ∨ e ∈ entriesOf c' := by
  intro fs
  induction fs with
  | nil =>
      intro e he
      simp only [setChild] at he
      rw [entriesF_cons, entriesF_nil] at he
      right
      simpa using he
  | cons q rest ih =>
      obtain ⟨n, c0⟩ := q
      intro e he
      by_cases hnn : n = name
      · simp only [setChild, if_pos hnn] at he
        rw [entriesF_cons] at he
        rcases List.mem_append.mp he with h1 | h1
        · right; exact h1
        · left
          rw [entriesF_cons]
          exact List.mem_append.mpr (Or.inr h1)
      · simp only [setChild, if_neg hnn] at he
        rw [entriesF_cons] at he
        rcases List.mem_append.mp he with h1 | h1
        · left
          rw [entriesF_cons]
          exact List.mem_append.mpr (Or.inl h1)
        · rcases ih e h1 with h2 | h2
          · left
            rw [entriesF_cons]
            exact List.mem_append.mpr (Or.inr h2)
          · right; exact h2

theorem mem_entriesOf_addBookmarkAt :
    ∀ (path : List String) (t : TreeNode) (bm? : Option BookmarkEntry) (e : BookmarkEntry),
      e ∈ entriesOf (addBookmarkAt t path bm?) → e ∈ entriesOf t ∨ bm? = some e := by
  intro path
  induction path with
  | nil =>
      intro t bm? e he
      obtain ⟨bms, fs⟩ := t
      cases bm? with
      | none => left; exact he
      | some bm =>
          rw [addBookmarkAt_node_nil_some, entriesOf_node] at he
          rw [entriesOf_node]
          rcases List.mem_append.mp he with h1 | h1
          · rcases List.mem_append.mp h1 with h2 | h2
            · left; exact List.mem_append.mpr (Or.inl h2)
            · right
              have : e = bm := by simpa using h2
              rw [this]
          · left; exact List.mem_append.mpr (Or.inr h1)
  | cons f rest ih =>
      intro t bm? e he
      obtain ⟨bms, fs⟩ := t
      rw [addBookmarkAt_node_cons, entriesOf_node] at he
      rw [entriesOf_node]
      rcases List.mem_append.mp he with h1 | h1
      · left; exact List.mem_append.mpr (Or.inl h1)
      · rcases mem_entriesF_setChild f _ fs e h1 with h2 | h2
        · left; exact List.mem_append.mpr (Or.inr h2)
        · rcases ih _ bm? e h2 with h3 | h3
          · rcases hg : getChild fs f with _ | c
            · rw [hg] at h3
              rw [show (Option.getD (none : Option TreeNode) emptyNode) = emptyNode from rfl,
                entriesOf_emptyNode] at h3
              cases h3
            · rw [hg] at h3
              rw [show (Option.getD (some c) emptyNode) = c from rfl] at h3
              left
              exact List.mem_append.mpr (Or.inr (mem_entriesF_of_getChild f c fs hg e h3))
          · right; exact h3

theorem mem_entriesOf_build (cols : List String) (tc uc : String) :
    ∀ (rows : List Row) (t : TreeNode) (e : BookmarkEntry),
      e ∈ entriesOf
          (rows.foldl (fun t r => addBookmarkAt t (extractPath r cols) (rowBookmark r tc uc)) t) →
      e ∈ entriesOf t ∨ ∃ r ∈ rows, rowBookmark r tc uc = some e := by
  intro rows
  induction rows with
  | nil =>
      intro t e he
      left
      exact he
  | cons r rows ih =>
      intro t e he
      rw [List.foldl_cons] at he
      rcases ih _ e he with h1 | h1
      · rcases mem_entriesOf_addBookmarkAt _ t _ e h1 with h2 | h2
        · left; exact h2
        · right; exact ⟨r, List.mem_cons_self r rows, h2⟩
      · rcases h1 with ⟨r', hr', he'⟩
        right
        exact ⟨r', List.mem_cons_of_mem r hr', he'⟩

theorem isBlank_false_strip_ne (v : Option String) (h : isBlank v = false) :
    strip (v.getD ("")) ≠ "" := by
  cases v with
  | none => cases h
  | some s =>
      simp only [isBlank] at h
      show strip s ≠ ""
      intro hs
      rw [hs] at h
      simp at h

theorem rowBookmark_fields (r : Row) (tc uc : String) (e : BookmarkEntry)
    (h : rowBookmark r tc uc = some e) : e.title ≠ "" ∧ e.url ≠ "" := by
  simp only [rowBookmark] at h
  by_cases hcc : (isBlank (getCell r tc) && isBlank (getCell r uc)) = true
  · rw [if_pos hcc] at h
    cases h
  · rw [if_neg hcc] at h
    injection h with h'
    subst h'
    constructor
    · show (if isBlank (getCell r tc) then "Untitled Bookmark"
          else strip ((getCell r tc).getD (""))) ≠ ""
      by_cases hbt : isBlank (getCell r tc) = true
      · rw [if_pos hbt]
        decide
      · have hbf : isBlank (getCell r tc) = false := by
          cases hb2 : isBlank (getCell r tc)
          · rfl
          · exact absurd hb2 hbt
        rw [if_neg (by rw [hbf]; exact fun hh => Bool.noConfusion hh)]
        exact isBlank_false_strip_ne _ hbf
    · show (if isBlank (getCell r uc) then "#"
          else strip ((getCell r uc).getD (""))) ≠ ""
      by_cases hbt : isBlank (getCell r uc) = true
      · rw [if_pos hbt]
        decide
      · have hbf : isBlank (getCell r uc) = false := by
          cases hb2 : isBlank (getCell r uc)
          · rfl
          · exact absurd hb2 hbt
        rw [if_neg (by rw [hbf]; exact fun hh => Bool.noConfusion hh)]
        exact isBlank_false_strip_ne _ hbf

theorem build_entries_nonblank (rows : List Row) (cols : List String) (tc uc : String) :
    ∀ e ∈ entriesOf (build_bookmark_tree rows tc uc cols), e.title ≠ "" ∧ e.url ≠ "" := by
  intro e he
  unfold build_bookmark_tree at he
  rcases mem_entriesOf_build cols tc uc rows emptyNode e he with h1 | h1
  · rw [entriesOf_emptyNode] at h1
    cases h1
  · rcases h1 with ⟨r, -, hr⟩
    exact rowBookmark_fields r tc uc e hr

/-- C10: every bookmark entry stored anywhere in a tree produced by the
tree builder has a non-empty title and a non-empty URL (the placeholders
themselves are non-empty), so for such trees the renderer's defensive
branch that would skip an entry with neither title nor URL content always
produces a line instead. -/
theorem builder_entry_invariant (rows : List Row) (cols : List String) (tc uc : String)
    (lvl ts : Nat) :
    ∀ e ∈ entriesOf (build_bookmark_tree rows tc uc cols),
      (e.title ≠ "" ∧ e.url ≠ "") ∧ (bookmarkLineOpt lvl ts e).isSome = true := by
  intro e he
  have h1 := build_entries_nonblank rows cols tc uc e he
  refine ⟨h1, ?_⟩
  have hcond : ¬(escapeHtml e.title = "" ∧ escapeHtml e.url = "") := by
    intro hcc
    exact absurd ((escapeHtml_eq_empty_iff e.title).mp hcc.1) h1.1
  simp only [bookmarkLineOpt]
  rw [if_neg hcond]
  rfl

/-- C10 witness: the tree built from one title-only row stores the entry
with the URL placeholder, and the renderer emits a line for it. -/
theorem builder_entry_invariant_witness :
    (({ title := "A", url := "#" } : BookmarkEntry).title ≠ ""
        ∧ ({ title := "A", url := "#" } : BookmarkEntry).url ≠ "")
      ∧ (bookmarkLineOpt 1 5 { title := "A", url := "#" }).isSome = true :=
  builder_entry_invariant [[(("Title" : String), some ("A"))]] [] ("Title") ("URL") 1 5
    { title := "A", url := "#" } (by decide)

/-! ## Analyzer totals -/

theorem analyzeFolders_total (fs : List (String × TreeNode))
    (IH : ∀ q ∈ fs, ∀ (depth : Nat) (st : ImportStats),
        (analyze_tree_stats (Prod.snd q) depth st).total_bookmarks
          = st.total_bookmarks + (entriesOf (Prod.snd q)).length) :
    ∀ (depth : Nat) (st : ImportStats),
      (analyzeFolders fs depth st).total_bookmarks
        = st.total_bookmarks + (entriesF fs).length := by
  induction fs with
  | nil =>
      intro depth st
      rw [analyzeFolders, entriesF_nil]
      rfl
  | cons q rest ih =>
      obtain ⟨name, sub⟩ := q
      intro depth st
      rw [analyzeFolders]
      rw [ih (fun q hq => IH q (List.mem_cons_of_mem _ hq))]
      rw [IH (name, sub) (List.mem_cons_self _ _) (depth + 1)]
      rw [entriesF_cons]
      simp only [List.length_append]
      omega

theorem analyze_total (t : TreeNode) :
    ∀ (depth : Nat) (st : ImportStats),
      (analyze_tree_stats t depth st).total_bookmarks
        = st.total_bookmarks + (entriesOf t).length := by
  induction t using treeNode_strongInduction with
  | node bms fs IH =>
      intro depth st
      rw [analyze_tree_stats]
      rw [analyzeFolders_total fs IH depth]
      rw [entriesOf_node]
      simp only [List.length_append]
      omega

/-! ## Scanning the rendered text -/

theorem scanToks_cons (c : Char) (cs : List Char) :
    scanToks (c :: cs) =
      (if anchorPat.isPrefixOf (c :: cs) then [Tok.anchor]
       else if openPat.isPrefixOf (c :: cs) then [Tok.openDL]
       else if closePat.isPrefixOf (c :: cs) then [Tok.closeDL]
       else []) ++ scanToks cs := by
  rw [scanToks]

theorem isPrefixOf_append_of_not_straddle (p : List Char) :
    ∀ (a k : List Char), straddles p a = false →
      p.isPrefixOf (a ++ k) = p.isPrefixOf a := by
  induction p with
  | nil =>
      intro a k _
      cases a <;> simp [List.isPrefixOf]
  | cons pc ps ih =>
      intro a k h
      cases a with
      | nil => cases h
      | cons ac as =>
          simp only [List.cons_append, List.isPrefixOf]
          by_cases hpc : (pc == ac) = true
          · have hs : straddles ps as = false := by
              rw [straddles, hpc] at h
              simpa using h
            have hih := ih as k hs
            simp only [hpc, List.append_eq, hih]
          · have hpc' : (pc == ac) = false := by
              cases hb : (pc == ac)
              · rfl
              · exact absurd hb hpc
            rw [hpc']
            simp only [Bool.false_and]

theorem scansTo_of_noStraddle : ∀ a : List Char, noStraddle a = true → ScansTo a (scanToks a) := by
  intro a
  induction a with
  | nil =>
      intro _ k
      rfl
  | cons c cs ih =>
      intro h k
      rw [noStraddle] at h
      rcases (Bool.and_eq_true _ _).mp h with ⟨h123, h4⟩
      rcases (Bool.and_eq_true _ _).mp h123 with ⟨h12, h3⟩
      rcases (Bool.and_eq_true _ _).mp h12 with ⟨h1, h2⟩
      have s1 : straddles anchorPat (c :: cs) = false := by
        cases hb : straddles anchorPat (c :: cs)
        · rfl
        · rw [hb] at h1; cases h1
      have s2 : straddles openPat (c :: cs) = false := by
        cases hb : straddles openPat (c :: cs)
        · rfl
        · rw [hb] at h2; cases h2
      have s3 : straddles closePat (c :: cs) = false := by
        cases hb : straddles closePat (c :: cs)
        · rfl
        · rw [hb] at h3; cases h3
      have e1 : anchorPat.isPrefixOf (c :: (cs ++ k)) = anchorPat.isPrefixOf (c :: cs) := by
        have hx := isPrefixOf_append_of_not_straddle anchorPat (c :: cs) k s1
        rwa [List.cons_append] at hx
      have e2 : openPat.isPrefixOf (c :: (cs ++ k)) = openPat.isPrefixOf (c :: cs) := by
        have hx := isPrefixOf_append_of_not_straddle openPat (c :: cs) k s2
        rwa [List.cons_append] at hx
      have e3 : closePat.isPrefixOf (c :: (cs ++ k)) = closePat.isPrefixOf (c :: cs) := by
        have hx := isPrefixOf_append_of_not_straddle closePat (c :: cs) k s3
        rwa [List.cons_append] at hx
      rw [List.cons_append, scanToks_cons, scanToks_cons, e1, e2, e3, ih h4 k,
        List.append_assoc]

theorem scansTo_of_no_lt : ∀ a : List Char, '<' ∉ a → ScansTo a [] := by
  intro a
  induction a with
  | nil =>
      intro _ k
      rfl
  | cons c cs ih =>
      intro h k
      have hc : c ≠ '<' := fun hh => h (hh ▸ List.mem_cons_self c cs)
      have hcs : '<' ∉ cs := fun hm => h (List.mem_cons_of_mem c hm)
      rw [List.cons_append, scanToks_cons]
      have e1 : anchorPat.isPrefixOf (c :: (cs ++ k)) = false := by
        simp [anchorPat, List.isPrefixOf]
        intro hh
        exact absurd hh.symm hc
      have e2 : openPat.isPrefixOf (c :: (cs ++ k)) = false := by
        simp [openPat, List.isPrefixOf]
        intro hh
        exact absurd hh.symm hc
      have e3 : closePat.isPrefixOf (c :: (cs ++ k)) = false := by
        simp [closePat, List.isPrefixOf]
        intro hh
        exact absurd hh.symm hc
      rw [e1, e2, e3, ih hcs k]
      simp

theorem scansTo_append (a b : List Char) (ta tb : List Tok)
    (ha : ScansTo a ta) (hb : ScansTo b tb) : ScansTo (a ++ b) (ta ++ tb) := by
  intro k
  rw [List.append_assoc, ha (b ++ k), hb k, List.append_assoc]

theorem scansTo_lit (s : String) (toks : List Tok) (h1 : noStraddle s.data = true)
    (h2 : scanToks s.data = toks) : ScansTo s.data toks := by
  intro k
  rw [scansTo_of_noStraddle s.data h1 k, h2]

theorem indentStr_no_lt (lvl : Nat) : '<' ∉ (indentStr lvl).data := by
  induction lvl with
  | zero =>
      intro h
      cases h
  | succ n ih =>
      intro h
      rw [show indentStr (n + 1) = "    " ++ indentStr n from rfl, String.data_append] at h
      rcases List.mem_append.mp h with h1 | h1
      · exact absurd h1 (by decide)
      · exact ih h1

theorem digitChar_ne_lt (k : Nat) : digitChar k ≠ '<' := by
  have h10 : k % 10 = 0 ∨ k % 10 = 1 ∨ k % 10 = 2 ∨ k % 10 = 3 ∨ k % 10 = 4 ∨ k % 10 = 5
      ∨ k % 10 = 6 ∨ k % 10 = 7 ∨ k % 10 = 8 ∨ k % 10 = 9 := by omega
  rcases h10 with h | h | h | h | h | h | h | h | h | h <;> rw [digitChar, h] <;> decide

theorem natDigits_no_lt : ∀ fuel n : Nat, '<' ∉ natDigits fuel n := by
  intro fuel
  induction fuel with
  | zero =>
      intro n h
      cases h
  | succ f ih =>
      intro n h
      rw [natDigits] at h
      by_cases hn : n = 0
      · rw [if_pos hn] at h
        cases h
      · rw [if_neg hn] at h
        rcases List.mem_append.mp h with h1 | h1
        · exact ih _ h1
        · have h2 : '<' = digitChar (n % 10) := by simpa using h1
          exact absurd h2.symm (digitChar_ne_lt (n % 10))

theorem natToString_no_lt (n : Nat) : '<' ∉ (natToString n).data := by
  unfold natToString
  by_cases hn : n = 0
  · rw [if_pos hn]
    decide
  · rw [if_neg hn]
    intro h
    exact natDigits_no_lt n n h

theorem escapeHtml_no_lt (s : String) : '<' ∉ (escapeHtml s).data := by
  intro h
  exact (escapeHtml_no_special s '<' h).1 rfl

theorem scansTo_bookmarkLine (lvl ts : Nat) (e : BookmarkEntry) (line : String)
    (h : bookmarkLineOpt lvl ts e = some line) : ScansTo line.data [Tok.anchor] := by
  simp only [bookmarkLineOpt] at h
  by_cases hcc : (escapeHtml e.title = "" ∧ escapeHtml e.url = "")
  · rw [if_pos hcc] at h
    cases h
  · rw [if_neg hcc] at h
    injection h with h'
    subst h'
    simp only [String.data_append]
    have h0 : ScansTo (indentStr lvl).data [] := scansTo_of_no_lt _ (indentStr_no_lt lvl)
    have h1 : ScansTo (("<DT><A HREF=\"").data) [Tok.anchor] :=
      scansTo_lit _ _ (by decide) (by decide)
    have h2 : ScansTo (if escapeHtml e.url = "" then ("#") else escapeHtml e.url).data [] := by
      by_cases hu : escapeHtml e.url = ""
      · rw [if_pos hu]
        exact scansTo_of_no_lt _ (by decide)
      · rw [if_neg hu]
        exact scansTo_of_no_lt _ (escapeHtml_no_lt e.url)
    have h3 : ScansTo (("\" ADD_DATE=\"").data) [] := scansTo_of_no_lt _ (by decide)
    have h4 : ScansTo (natToString ts).data [] := scansTo_of_no_lt _ (natToString_no_lt ts)
    have h5 : ScansTo (("\" LAST_MODIFIED=\"").data) [] := scansTo_of_no_lt _ (by decide)
    have h6 : ScansTo (("\">").data) [] := scansTo_of_no_lt _ (by decide)
    have h7 : ScansTo (if escapeHtml e.title = "" then ("Untitled Bookmark")
        else escapeHtml e.title).data [] := by
      by_cases ht : escapeHtml e.title = ""
      · rw [if_pos ht]
        exact scansTo_of_no_lt _ (by decide)
      · rw [if_neg ht]
        exact scansTo_of_no_lt _ (escapeHtml_no_lt e.title)
    have h8 : ScansTo (("</A>").data) [] := scansTo_lit _ _ (by decide) (by decide)
    have hall := scansTo_append _ _ _ _ (scansTo_append _ _ _ _ (scansTo_append _ _ _ _
      (scansTo_append _ _ _ _ (scansTo_append _ _ _ _ (scansTo_append _ _ _ _
        (scansTo_append _ _ _ _ (scansTo_append _ _ _ _
          (scansTo_append _ _ _ _ h0 h1) h2) h3) h4) h5) h4) h6) h7) h8
    simpa using hall

theorem scansTo_headingLine (lvl ts : Nat) (name : String) :
    ScansTo (headingLine lvl ts name).data [] := by
  simp only [headingLine, String.data_append]
  have h0 : ScansTo (indentStr lvl).data [] := scansTo_of_no_lt _ (indentStr_no_lt lvl)
  have h1 : ScansTo (("<DT><H3 ADD_DATE=\"").data) [] := scansTo_lit _ _ (by decide) (by decide)
  have h2 : ScansTo (natToString ts).data [] := scansTo_of_no_lt _ (natToString_no_lt ts)
  have h3 : ScansTo (("\" LAST_MODIFIED=\"").data) [] := scansTo_of_no_lt _ (by decide)
  have h4 : ScansTo (("\" PERSONAL_TOOLBAR_FOLDER=\"false\">").data) [] :=
    scansTo_of_no_lt _ (by decide)
  have h5 : ScansTo (if escapeHtml name = "" then ("Untitled Folder")
      else escapeHtml name).data [] := by
    by_cases hn : escapeHtml name = ""
    · rw [if_pos hn]
      exact scansTo_of_no_lt _ (by decide)
    · rw [if_neg hn]
      exact scansTo_of_no_lt _ (escapeHtml_no_lt name)
  have h6 : ScansTo (("</H3>").data) [] := scansTo_lit _ _ (by decide) (by decide)
  have hall := scansTo_append _ _ _ _ (scansTo_append _ _ _ _ (scansTo_append _ _ _ _
    (scansTo_append _ _ _ _ (scansTo_append _ _ _ _ (scansTo_append _ _ _ _
      (scansTo_append _ _ _ _ h0 h1) h2) h3) h2) h4) h5) h6
  simpa using hall

theorem scansTo_openLine (lvl : Nat) :
    ScansTo (indentStr lvl ++ ("<DL><p>")).data [Tok.openDL] := by
  rw [String.data_append]
  have h0 : ScansTo (indentStr lvl).data [] := scansTo_of_no_lt _ (indentStr_no_lt lvl)
  have h1 : ScansTo (("<DL><p>").data) [Tok.openDL] := scansTo_lit _ _ (by decide) (by decide)
  simpa using scansTo_append _ _ _ _ h0 h1

theorem scansTo_closeLine (lvl : Nat) :
    ScansTo (indentStr lvl ++ ("</DL><p>")).data [Tok.closeDL] := by
  rw [String.data_append]
  have h0 : ScansTo (indentStr lvl).data [] := scansTo_of_no_lt _ (indentStr_no_lt lvl)
  have h1 : ScansTo (("</DL><p>").data) [Tok.closeDL] := scansTo_lit _ _ (by decide) (by decide)
  simpa using scansTo_append _ _ _ _ h0 h1

theorem scansTo_joinLines :
    ∀ (l : List String) (vs : List (List Tok)),
      List.Forall₂ (fun s v => ScansTo s.data v) l vs →
      ScansTo (joinLines l).data vs.flatten := by
  intro l
  induction l with
  | nil =>
      intro vs h
      cases h
      intro k
      rfl
  | cons s rest ih =>
      intro vs h
      cases h with
      | cons hs htail =>
          cases rest with
          | nil =>
              cases htail
              intro k
              simpa using hs k
          | cons r rest' =>
              intro k
              rw [show joinLines (s :: r :: rest') = s ++ "\n" ++ joinLines (r :: rest') from rfl]
              simp only [String.data_append]
              rw [List.append_assoc, List.append_assoc, hs _]
              rw [scansTo_of_no_lt ['\n'] (by decide) _]
              rw [ih _ htail k]
              simp

theorem forall2_self_map {α β : Type} (R : α → β → Prop) (f : α → β) (l : List α)
    (h : ∀ a ∈ l, R a (f a)) : List.Forall₂ R l (l.map f) := by
  induction l with
  | nil => exact List.Forall₂.nil
  | cons a rest ih =>
      rw [List.map_cons]
      exact List.Forall₂.cons (h a (List.mem_cons_self _ _))
        (ih (fun a ha => h a (List.mem_cons_of_mem _ ha)))

theorem forall2_bookmarkLines (lvl ts : Nat) (bms : List BookmarkEntry) :
    List.Forall₂ (fun s v => ScansTo s.data v) (bms.filterMap (bookmarkLineOpt lvl ts))
      ((bms.filterMap (bookmarkLineOpt lvl ts)).map (fun _ => [Tok.anchor])) := by
  refine forall2_self_map _ _ _ ?_
  intro line hline
  rcases List.mem_filterMap.mp hline with ⟨e, -, he⟩
  exact scansTo_bookmarkLine lvl ts e line he

theorem join_anchor_lines (lvl ts : Nat) (bms : List BookmarkEntry) :
    ((bms.filterMap (bookmarkLineOpt lvl ts)).map (fun _ => ([Tok.anchor] : List Tok))).flatten
      = bms.filterMap (fun e =>
          if escapeHtml e.title = "" ∧ escapeHtml e.url = "" then none else some Tok.anchor) := by
  induction bms with
  | nil => rfl
  | cons e rest ih =>
      rw [List.filterMap_cons, List.filterMap_cons]
      by_cases hcc : (escapeHtml e.title = "" ∧ escapeHtml e.url = "")
      · rw [show bookmarkLineOpt lvl ts e = none from by
          simp only [bookmarkLineOpt]; rw [if_pos hcc]]
        rw [if_pos hcc]
        exact ih
      · have hb : ∃ line, bookmarkLineOpt lvl ts e = some line := by
          simp only [bookmarkLineOpt]
          rw [if_neg hcc]
          exact ⟨_, rfl⟩
        rcases hb with ⟨line, hline⟩
        rw [hline, if_neg hcc, List.map_cons]
        show Tok.anchor
            :: ((rest.filterMap (bookmarkLineOpt lvl ts)).map
                (fun _ => ([Tok.anchor] : List Tok))).flatten
          = Tok.anchor
            :: rest.filterMap (fun e =>
                if escapeHtml e.title = "" ∧ escapeHtml e.url = "" then none
                else some Tok.anchor)
        rw [ih]

theorem toksOf_node (bms : List BookmarkEntry) (fs : List (String × TreeNode)) :
    toksOf (TreeNode.node bms fs)
      = bms.filterMap (fun e =>
          if escapeHtml e.title = "" ∧ escapeHtml e.url = "" then none else some Tok.anchor)
        ++ toksF fs := by
  rw [toksOf]

theorem toksF_nil : toksF [] = [] := by
  rw [toksF]

theorem toksF_cons (name : String) (sub : TreeNode) (rest : List (String × TreeNode)) :
    toksF ((name, sub) :: rest) = Tok.openDL :: (toksOf sub ++ Tok.closeDL :: toksF rest) := by
  rw [toksF]

theorem scansTo_htmlFolders (lvl ts : Nat) :
    ∀ fs : List (String × TreeNode),
      (∀ q ∈ fs, ∀ (lvl ts : Nat),
        ScansTo (generate_html_recursive (Prod.snd q) lvl ts).data (toksOf (Prod.snd q))) →
      ∃ vs : List (List Tok),
        List.Forall₂ (fun s v => ScansTo s.data v) (htmlFolders fs lvl ts) vs
          ∧ vs.flatten = toksF fs := by
  intro fs
  induction fs with
  | nil =>
      intro _
      refine ⟨[], ?_, by rw [toksF_nil]; rfl⟩
      rw [show htmlFolders [] lvl ts = [] from rfl]
      exact List.Forall₂.nil
  | cons q rest ih =>
      obtain ⟨name, sub⟩ := q
      intro IH
      rcases ih (fun q hq => IH q (List.mem_cons_of_mem _ hq)) with ⟨vs, hvs, hjoin⟩
      refine ⟨[] :: [Tok.openDL] :: toksOf sub :: [Tok.closeDL] :: vs, ?_, ?_⟩
      · rw [show htmlFolders ((name, sub) :: rest) lvl ts
            = headingLine lvl ts name
              :: (indentStr lvl ++ "<DL><p>")
              :: joinLines (htmlOutput sub (lvl + 1) ts)
              :: (indentStr lvl ++ "</DL><p>")
              :: htmlFolders rest lvl ts from rfl]
        refine List.Forall₂.cons (scansTo_headingLine lvl ts name) ?_
        refine List.Forall₂.cons (scansTo_openLine lvl) ?_
        refine List.Forall₂.cons ?_ ?_
        · exact IH (name, sub) (List.mem_cons_self _ _) (lvl + 1) ts
        · exact List.Forall₂.cons (scansTo_closeLine lvl) hvs
      · rw [toksF_cons, ← hjoin]
        simp

theorem scansTo_render (t : TreeNode) :
    ∀ lvl ts : Nat, ScansTo (generate_html_recursive t lvl ts).data (toksOf t) := by
  induction t using treeNode_strongInduction with
  | node bms fs IH =>
      intro lvl ts
      rcases scansTo_htmlFolders lvl ts fs IH with ⟨vs, hvs, hjoin⟩
      have hall := scansTo_joinLines
        (bms.filterMap (bookmarkLineOpt lvl ts) ++ htmlFolders fs lvl ts)
        ((bms.filterMap (bookmarkLineOpt lvl ts)).map (fun _ => [Tok.anchor]) ++ vs)
        (List.rel_append (forall2_bookmarkLines lvl ts bms) hvs)
      rw [List.flatten_append, join_anchor_lines, hjoin] at hall
      rw [toksOf_node]
      show ScansTo (joinLines (htmlOutput (TreeNode.node bms fs) lvl ts)).data _
      rw [show htmlOutput (TreeNode.node bms fs) lvl ts
          = bms.filterMap (bookmarkLineOpt lvl ts) ++ htmlFolders fs lvl ts from rfl]
      exact hall

theorem scanToks_render (t : TreeNode) (lvl ts : Nat) :
    scanToks (generate_html_recursive t lvl ts).data = toksOf t := by
  have h := scansTo_render t lvl ts []
  simpa [show scanToks ([] : List Char) = [] from rfl] using h

set_option maxRecDepth 10000 in
theorem scanToks_full_html (t : TreeNode) (ts : Nat) :
    scanToks (full_html t ts).data = Tok.openDL :: (toksOf t ++ [Tok.closeDL]) := by
  have hh : ScansTo html_header.data [Tok.openDL] := scansTo_lit _ _ (by decide) (by decide)
  have hb := scansTo_render t 1 ts
  have hn : ScansTo (("\n").data) [] := scansTo_of_no_lt _ (by decide)
  have hf : ScansTo html_footer.data [Tok.closeDL] := scansTo_lit _ _ (by decide) (by decide)
  have hall := scansTo_append _ _ _ _
    (scansTo_append _ _ _ _ (scansTo_append _ _ _ _ hh hb) hn) hf
  have happ := hall []
  rw [List.append_nil] at happ
  have hd : (full_html t ts).data
      = ((html_header.data ++ (generate_html_recursive t 1 ts).data) ++ ("\n").data)
        ++ html_footer.data := by
    unfold full_html
    rw [String.data_append, String.data_append, String.data_append]
  rw [hd, happ]
  simp [show scanToks ([] : List Char) = [] from rfl]

/-! ## Balance of the list tags; anchor counts -/

theorem checkBal_append (a b : List Bool) :
    ∀ d, checkBal (a ++ b) d = (checkBal a d).bind (checkBal b) := by
  induction a with
  | nil =>
      intro d
      rfl
  | cons x rest ih =>
      intro d
      cases x with
      | true =>
          rw [List.cons_append]
          show checkBal (rest ++ b) (d + 1) = _
          rw [ih]
          rfl
      | false =>
          cases d with
          | zero => rfl
          | succ d =>
              rw [List.cons_append]
              show checkBal (rest ++ b) d = _
              rw [ih]
              rfl

theorem dlOnly_cons_open (l : List Tok) : dlOnly (Tok.openDL :: l) = true :: dlOnly l := by
  simp [dlOnly]

theorem dlOnly_cons_close (l : List Tok) : dlOnly (Tok.closeDL :: l) = false :: dlOnly l := by
  simp [dlOnly]

theorem dlOnly_cons_anchor (l : List Tok) : dlOnly (Tok.anchor :: l) = dlOnly l := by
  simp [dlOnly]

theorem dlOnly_append (a b : List Tok) : dlOnly (a ++ b) = dlOnly a ++ dlOnly b := by
  simp [dlOnly]

theorem dlOnly_anchors (bms : List BookmarkEntry) :
    dlOnly (bms.filterMap (fun e =>
      if escapeHtml e.title = "" ∧ escapeHtml e.url = "" then none else some Tok.anchor)) = [] := by
  induction bms with
  | nil => rfl
  | cons e rest ih =>
      rw [List.filterMap_cons]
      by_cases hcc : (escapeHtml e.title = "" ∧ escapeHtml e.url = "")
      · rw [if_pos hcc]
        exact ih
      · rw [if_neg hcc]
        show dlOnly (Tok.anchor :: _) = []
        rw [dlOnly_cons_anchor]
        exact ih

theorem checkBal_toksF (fs : List (String × TreeNode))
    (IH : ∀ q ∈ fs, ∀ d, checkBal (dlOnly (toksOf (Prod.snd q))) d = some d) :
    ∀ d, checkBal (dlOnly (toksF fs)) d = some d := by
  induction fs with
  | nil =>
      intro d
      rw [toksF_nil]
      rfl
  | cons q rest ih =>
      obtain ⟨name, sub⟩ := q
      intro d
      rw [toksF_cons, dlOnly_cons_open, dlOnly_append, dlOnly_cons_close]
      show checkBal (dlOnly (toksOf sub) ++ false :: dlOnly (toksF rest)) (d + 1) = some d
      rw [checkBal_append, IH (name, sub) (List.mem_cons_self _ _) (d + 1)]
      show checkBal (false :: dlOnly (toksF rest)) (d + 1) = some d
      show checkBal (dlOnly (toksF rest)) d = some d
      exact ih (fun q hq => IH q (List.mem_cons_of_mem _ hq)) d

theorem checkBal_toksOf (t : TreeNode) :
    ∀ d, checkBal (dlOnly (toksOf t)) d = some d := by
  induction t using treeNode_strongInduction with
  | node bms fs IH =>
      intro d
      rw [toksOf_node, dlOnly_append, dlOnly_anchors, List.nil_append]
      exact checkBal_toksF fs IH d

theorem count_anchor_anchors (bms : List BookmarkEntry) :
    (bms.filterMap (fun e =>
        if escapeHtml e.title = "" ∧ escapeHtml e.url = "" then none
        else some Tok.anchor)).count Tok.anchor
      = bms.countP (fun e => !(decide (escapeHtml e.title = "" ∧ escapeHtml e.url = ""))) := by
  induction bms with
  | nil => rfl
  | cons e rest ih =>
      rw [List.filterMap_cons, List.countP_cons]
      by_cases hcc : (escapeHtml e.title = "" ∧ escapeHtml e.url = "")
      · rw [if_pos hcc]
        simp [hcc, ih]
      · rw [if_neg hcc]
        simp [hcc, ih, List.count_cons]

theorem count_anchor_toksF (fs : List (String × TreeNode))
    (IH : ∀ q ∈ fs, (toksOf (Prod.snd q)).count Tok.anchor
        = (entriesOf (Prod.snd q)).countP
            (fun e => !(decide (escapeHtml e.title = "" ∧ escapeHtml e.url = "")))) :
    (toksF fs).count Tok.anchor
      = (entriesF fs).countP
          (fun e => !(decide (escapeHtml e.title = "" ∧ escapeHtml e.url = ""))) := by
  induction fs with
  | nil =>
      rw [toksF_nil, entriesF_nil]
      rfl
  | cons q rest ih =>
      obtain ⟨name, sub⟩ := q
      rw [toksF_cons, entriesF_cons, List.countP_append]
      rw [show (Tok.openDL :: (toksOf sub ++ Tok.closeDL :: toksF rest)).count Tok.anchor
          = (toksOf sub ++ Tok.closeDL :: toksF rest).count Tok.anchor from by
        simp [List.count_cons]]
      rw [List.count_append]
      rw [show (Tok.closeDL :: toksF rest).count Tok.anchor
          = (toksF rest).count Tok.anchor from by simp [List.count_cons]]
      rw [IH (name, sub) (List.mem_cons_self _ _),
        ih (fun q hq => IH q (List.mem_cons_of_mem _ hq))]

theorem count_anchor_toksOf (t : TreeNode) :
    (toksOf t).count Tok.anchor
      = (entriesOf t).countP
          (fun e => !(decide (escapeHtml e.title = "" ∧ escapeHtml e.url = ""))) := by
  induction t using treeNode_strongInduction with
  | node bms fs IH =>
      rw [toksOf_node, entriesOf_node, List.count_append, List.countP_append,
        count_anchor_anchors, count_anchor_toksF fs IH]

theorem htmlFolders_eq_bind (fs : List (String × TreeNode)) (lvl ts : Nat) :
    htmlFolders fs lvl ts
      = fs.bind (fun q =>
          [headingLine lvl ts q.1, indentStr lvl ++ ("<DL><p>"),
           generate_html_recursive q.2 (lvl + 1) ts, indentStr lvl ++ ("</DL><p>")]) := by
  induction fs with
  | nil => rfl
  | cons q rest ih =>
      obtain ⟨name, sub⟩ := q
      simp [htmlFolders, generate_html_recursive, ih]

/-- C6: at every node the renderer emits, in this fixed order, the node's
own bookmark lines in stored order, then each child folder in stored
insertion order as a heading line, an opening nested-list line, the
child's recursive rendering, and a matching closing line; the token scan
of the rendered text is exactly the expected trace, whose open/close
parenthesis word is balanced, both for any node's rendering and for the
full document with its fixed header and footer. -/
theorem renderer_order_and_balance (bms : List BookmarkEntry) (fs : List (String × TreeNode))
    (lvl ts : Nat) :
    htmlOutput (TreeNode.node bms fs) lvl ts
        = bms.filterMap (bookmarkLineOpt lvl ts)
          ++ fs.bind (fun q =>
            [headingLine lvl ts q.1, indentStr lvl ++ ("<DL><p>"),
             generate_html_recursive q.2 (lvl + 1) ts, indentStr lvl ++ ("</DL><p>")])
      ∧ scanToks (generate_html_recursive (TreeNode.node bms fs) lvl ts).data
          = toksOf (TreeNode.node bms fs)
      ∧ checkBal (dlOnly (toksOf (TreeNode.node bms fs))) 0 = some 0
      ∧ scanToks (full_html (TreeNode.node bms fs) ts).data
          = Tok.openDL :: (toksOf (TreeNode.node bms fs) ++ [Tok.closeDL])
      ∧ checkBal (dlOnly (scanToks (full_html (TreeNode.node bms fs) ts).data)) 0 = some 0 := by
  refine ⟨?_, scanToks_render _ lvl ts, checkBal_toksOf _ 0, scanToks_full_html _ ts, ?_⟩
  · rw [show htmlOutput (TreeNode.node bms fs) lvl ts
        = bms.filterMap (bookmarkLineOpt lvl ts) ++ htmlFolders fs lvl ts from rfl,
      htmlFolders_eq_bind]
  · rw [scanToks_full_html, dlOnly_cons_open, dlOnly_append, dlOnly_cons_close]
    show checkBal (dlOnly (toksOf (TreeNode.node bms fs)) ++ [false]) 1 = some 0
    rw [checkBal_append, checkBal_toksOf _ 1]
    rfl

/-- C8: the total bookmark count computed by the tree analyzer on a tree
produced by the builder equals the number of bookmark anchor openings
present in the full rendered document for the same tree. -/
theorem analyzer_matches_rendered_anchors (rows : List Row) (cols : List String)
    (tc uc : String) (ts : Nat) :
    (analyze_tree_stats (build_bookmark_tree rows tc uc cols) 0
        { total_bookmarks := 0, folders_per_level := [] }).total_bookmarks
      = (scanToks (full_html (build_bookmark_tree rows tc uc cols) ts).data).count Tok.anchor := by
  rw [analyze_total (build_bookmark_tree rows tc uc cols) 0]
  rw [scanToks_full_html (build_bookmark_tree rows tc uc cols) ts]
  rw [show (Tok.openDL :: (toksOf (build_bookmark_tree rows tc uc cols) ++ [Tok.closeDL])).count
        Tok.anchor
      = (toksOf (build_bookmark_tree rows tc uc cols)).count Tok.anchor from by
    simp [List.count_cons, List.count_append]]
  rw [count_anchor_toksOf]
  have hall : ∀ e ∈ entriesOf (build_bookmark_tree rows tc uc cols),
      (fun e : BookmarkEntry =>
        !(decide (escapeHtml e.title = "" ∧ escapeHtml e.url = ""))) e = true := by
    intro e he
    have h1 := build_entries_nonblank rows cols tc uc e he
    simp only [Bool.not_eq_true']
    rw [decide_eq_false_iff_not]
    intro hcc
    exact absurd ((escapeHtml_eq_empty_iff _).mp hcc.1) h1.1
  rw [List.countP_eq_length.mpr hall]
  simp
